import Mathlib

/-!
Verification of the bingo-card OCR parsing pipeline (`src/utils/ocrParser.ts`,
class `BingoOCRParser`).  The pure core of the pipeline is embedded shallowly:
JavaScript strings become `List Char`, JavaScript numbers become `ℚ`, the
stable `Array.sort` becomes a structural stable insertion sort, and the two
points where the JavaScript code can throw inside the parsing loop (no
accepted fragment; a NaN cell index from a degenerate bounding box, which
makes `grid[NaN]` undefined) become `Option.none`.
-/

namespace Bingo

/-! ### Characters and strings -/

/-- Test for an ASCII digit, as the regexes `/\d/` do on the inputs in scope. -/
def isDigitChar (c : Char) : Bool :=
  decide ('0'.toNat ≤ c.toNat) && decide (c.toNat ≤ '9'.toNat)

/-- Numeric value of a digit character. -/
def digitVal (c : Char) : ℕ :=
  c.toNat - '0'.toNat

/-- ASCII model of `String.prototype.toUpperCase`. -/
def jsUpper (c : Char) : Char :=
  if 'a' ≤ c ∧ c ≤ 'z' then Char.ofNat (c.toNat - 32) else c

/-- Whitespace recognised by `String.prototype.trim` (ASCII part). -/
def isJsWs (c : Char) : Bool :=
  decide (c ∈ [' ', '\t', '\n', '\r', '\x0b', '\x0c'])

/-- Model of `String.prototype.trim`. -/
def jsTrim (l : List Char) : List Char :=
  ((l.dropWhile isJsWs).reverse.dropWhile isJsWs).reverse

/-- Model of `String.prototype.toUpperCase`. -/
def upperList (l : List Char) : List Char :=
  l.map jsUpper

/-! ### Data model -/

/-- One OCR fragment: `{ text, confidence, vertices }` (`OCRResult` in the
source).  Coordinates and confidences are modelled as rationals. -/
structure OCRResult where
  text : List Char
  confidence : ℚ
  vertices : List (ℚ × ℚ)
deriving DecidableEq

/-- A resolved number (`BingoNumber` in the source). -/
structure BingoNumber where
  value : ℕ
  isOdd : Bool
  row : ℕ
  col : ℕ
  confidence : ℚ
deriving DecidableEq

/-- The final analysis result (`BingoCard` in the source).  After a successful
run `freeSpaceContent` is always set, so it is not optional here. -/
structure Card where
  numbers : List BingoNumber
  freeSpaceContent : List Char
  oddsCount : ℕ
  evensCount : ℕ
  totalNumbers : ℕ
  confidence : ℚ
deriving DecidableEq

/-! ### Stable sort

`Array.prototype.sort` with a numeric comparator is a stable sort; it is
modelled by a structural stable insertion sort. -/

/-- Insert `x` in front of the first element `y` with `le x y`. -/
def insertSorted (le : α → α → Bool) (x : α) : List α → List α
  | [] => [x]
  | y :: ys => if le x y then x :: y :: ys else y :: insertSorted le x ys

/-- Stable sort with respect to the boolean preorder `le`. -/
def stableSortBy (le : α → α → Bool) : List α → List α
  | [] => []
  | x :: xs => insertSorted le x (stableSortBy le xs)

/-! ### OCR character corrections (`OCR_CORRECTIONS` / `correctOCRErrors`)

The source iterates over the entries of `OCR_CORRECTIONS` in insertion order
and runs `text.replace(new RegExp(wrong, 'g'), right)` for each.  For every
key except `'|'` this replaces each occurrence of the key character.  The key
`'|'` is not escaped, so `new RegExp('|')` is the empty alternation: it
matches the empty string at every position and the global replace inserts a
`'1'` at every boundary of the string (the pipe characters themselves are
left untouched). -/

/-- Replace every occurrence of the character `a` by `b`
(`replace(/a/g, b)` for a non-special character `a`). -/
def substOne (a b : Char) (l : List Char) : List Char :=
  l.map fun c => if c = a then b else c

/-- Effect of `replace(new RegExp('|', 'g'), '1')`: a `'1'` is inserted at
every position of the string, including both ends. -/
def interleaveOnes (l : List Char) : List Char :=
  '1' :: l.flatMap fun c => [c, '1']

/-- Model of `correctOCRErrors`, applying the seventeen `OCR_CORRECTIONS`
entries in insertion order: O o Q → 0, l I → 1, the `'|'` entry (empty-match
insertion), i → 1, Z z → 2, S s → 5, G b → 6, T t → 7, B → 8, g → 9. -/
def correctOCRErrors (t : List Char) : List Char :=
  substOne 'g' '9' (substOne 'B' '8' (substOne 't' '7' (substOne 'T' '7'
    (substOne 'b' '6' (substOne 'G' '6' (substOne 's' '5' (substOne 'S' '5'
      (substOne 'z' '2' (substOne 'Z' '2' (substOne 'i' '1'
        (interleaveOnes
          (substOne 'I' '1' (substOne 'l' '1' (substOne 'Q' '0'
            (substOne 'o' '0' (substOne 'O' '0' t))))))))))))))))

/-! ### Number extraction (`extractAllPossibleNumbers`) -/

/-- Model of `isValidBingoNumber`: `num >= 1 && num <= 75`. -/
def isValidBingoNumber (n : ℕ) : Bool :=
  decide (1 ≤ n) && decide (n ≤ 75)

/-- The numbers produced by scanning with `/\d{1,2}/g`: each maximal digit
run is chopped greedily into two-digit pieces with a possible final
one-digit piece. -/
def digitRunNums : List Char → List ℕ
  | [] => []
  | [c] => if isDigitChar c then [digitVal c] else []
  | c :: d :: rest =>
    if isDigitChar c then
      if isDigitChar d then (10 * digitVal c + digitVal d) :: digitRunNums rest
      else digitVal c :: digitRunNums (d :: rest)
    else digitRunNums (d :: rest)

/-- Strategy 3 of `extractAllPossibleNumbers`: at every index, the one-digit
substring and (when the next character is also a digit) the two-digit
substring. -/
def charScanNums : List Char → List ℕ
  | [] => []
  | [c] => if isDigitChar c then [digitVal c] else []
  | c :: d :: rest =>
    ((if isDigitChar c then [digitVal c] else []) ++
      (if isDigitChar c && isDigitChar d then [10 * digitVal c + digitVal d] else [])) ++
      charScanNums (d :: rest)

/-- Model of `Set.add` followed at the end by `Array.from`: append while keeping the
first occurrence of each element. -/
def insertUniq (acc : List ℕ) (n : ℕ) : List ℕ :=
  if n ∈ acc then acc else acc ++ [n]

/-- One accumulation step: `if (isValidBingoNumber(num)) numbers.add(num)`. -/
def addValid (acc : List ℕ) (n : ℕ) : List ℕ :=
  if isValidBingoNumber n then insertUniq acc n else acc

/-- Model of `extractAllPossibleNumbers`: strategy 1 (direct `/\d{1,2}/g`),
then strategy 2 (the same on the corrected text), then strategy 3
(character-by-character), all inserted into one insertion-ordered set. -/
def extractAllPossibleNumbers (t : List Char) : List ℕ :=
  (charScanNums t).foldl addValid
    ((digitRunNums (correctOCRErrors t)).foldl addValid
      ((digitRunNums t).foldl addValid []))

/-! ### Token filter (`shouldProcessOCRResult`) -/

/-- Model of `text.toUpperCase().match(/^[BINGO]$/)`: a single character whose
upper-case form is a column header. -/
def isHeaderText (t : List Char) : Bool :=
  match t with
  | [c] => decide (jsUpper c ∈ ['B', 'I', 'N', 'G', 'O'])
  | _ => false

/-- Model of `text.toUpperCase().match(/^(FREE|SPACE)$/)`. -/
def isFreeSpaceText (t : List Char) : Bool :=
  decide (upperList t = "FREE".data) || decide (upperList t = "SPACE".data)

/-- Model of `shouldProcessOCRResult`. -/
def shouldProcessOCRResult (r : OCRResult) : Bool :=
  let text := jsTrim r.text
  if isFreeSpaceText text then true
  else if isHeaderText text then false
  else if r.confidence < 3 / 10 then false
  else if text.any isDigitChar then !(extractAllPossibleNumbers text).isEmpty
  else false

/-! ### Geometry (`getCenter`, `getBoundingBox` and the overall bounds) -/

/-- Minimum of a list of rationals (`Math.min(...)`; junk value `0` for the
empty list, which in the source yields `Infinity` and is only reachable on
degenerate inputs that are handled separately). -/
def minListQ : List ℚ → ℚ
  | [] => 0
  | x :: xs => xs.foldl min x

/-- Maximum of a list of rationals (`Math.max(...)`). -/
def maxListQ : List ℚ → ℚ
  | [] => 0
  | x :: xs => xs.foldl max x

/-- The `getCenter` x-coordinate: midpoint of the vertex bounding box. -/
def centerX (vs : List (ℚ × ℚ)) : ℚ :=
  (minListQ (vs.map Prod.fst) + maxListQ (vs.map Prod.fst)) / 2

/-- The `getCenter` y-coordinate. -/
def centerY (vs : List (ℚ × ℚ)) : ℚ :=
  (minListQ (vs.map Prod.snd) + maxListQ (vs.map Prod.snd)) / 2

/-- All x-coordinates of all vertices of all fragments. -/
def allXs (l : List OCRResult) : List ℚ :=
  l.flatMap fun r => r.vertices.map Prod.fst

/-- All y-coordinates of all vertices of all fragments. -/
def allYs (l : List OCRResult) : List ℚ :=
  l.flatMap fun r => r.vertices.map Prod.snd

/-- Overall `minX` accumulated over the per-fragment bounding boxes. -/
def bbMinX (l : List OCRResult) : ℚ := minListQ (allXs l)

/-- Overall `maxX`. -/
def bbMaxX (l : List OCRResult) : ℚ := maxListQ (allXs l)

/-- Overall `minY`. -/
def bbMinY (l : List OCRResult) : ℚ := minListQ (allYs l)

/-- Overall `maxY`. -/
def bbMaxY (l : List OCRResult) : ℚ := maxListQ (allYs l)

/-- Overall `width = maxX - minX` before padding. -/
def bbWidth (l : List OCRResult) : ℚ := bbMaxX l - bbMinX l

/-- Overall `height = maxY - minY` before padding. -/
def bbHeight (l : List OCRResult) : ℚ := bbMaxY l - bbMinY l

/-! ### Relaxed bounding-box grid (`gridFromBoundingBoxRelaxed`) -/

/-- Padded `minX -= width * 0.1` (10% padding). -/
def padMinX (l : List OCRResult) : ℚ := bbMinX l - bbWidth l * (1 / 10)

/-- Padded `minY -= height * 0.1`. -/
def padMinY (l : List OCRResult) : ℚ := bbMinY l - bbHeight l * (1 / 10)

/-- Padded `maxX += width * 0.1`. -/
def padMaxX (l : List OCRResult) : ℚ := bbMaxX l + bbWidth l * (1 / 10)

/-- Padded `maxY += height * 0.1`. -/
def padMaxY (l : List OCRResult) : ℚ := bbMaxY l + bbHeight l * (1 / 10)

/-- Relaxed `cellWidth = (maxX - minX) / 5` after padding. -/
def relaxedCellW (l : List OCRResult) : ℚ := (padMaxX l - padMinX l) / 5

/-- Relaxed `cellHeight = (maxY - minY) / 5` after padding. -/
def relaxedCellH (l : List OCRResult) : ℚ := (padMaxY l - padMinY l) / 5

/-- Model of `Math.max(0, Math.min(4, z))`. -/
def clamp04 (z : ℤ) : ℤ := max 0 (min 4 z)

/-- The `clampedRow` of a fragment in the relaxed bounding-box strategy. -/
def bboxRow (l : List OCRResult) (r : OCRResult) : ℤ :=
  clamp04 (Rat.floor ((centerY r.vertices - padMinY l) / relaxedCellH l))

/-- The `clampedCol` of a fragment in the relaxed bounding-box strategy. -/
def bboxCol (l : List OCRResult) (r : OCRResult) : ℤ :=
  clamp04 (Rat.floor ((centerX r.vertices - padMinX l) / relaxedCellW l))

/-- A 5×5 grid of fragment lists. -/
def Grid : Type := Fin 5 → Fin 5 → List OCRResult

/-- Model of `gridFromBoundingBoxRelaxed`.  When the overall bounding box is
degenerate (zero width or zero height) or some fragment has no vertices, the
JavaScript cell index is `NaN`, `grid[NaN]` is `undefined` and the `push`
throws, so the model returns `none` in exactly those cases. -/
def gridFromBoundingBoxRelaxed (l : List OCRResult) : Option Grid :=
  if l.isEmpty then some fun _ _ => []
  else if l.any fun r => r.vertices.isEmpty then none
  else if bbWidth l = 0 ∨ bbHeight l = 0 then none
  else some fun i j =>
    l.filter fun r => decide (bboxRow l r = ((i : ℕ) : ℤ) ∧ bboxCol l r = ((j : ℕ) : ℤ))

/-! ### Header-based grid (`findHeaders`, `gridFromHeaders`) -/

/-- Model of `findHeaders`: header fragments sorted by center x. -/
def findHeaders (l : List OCRResult) : List OCRResult :=
  stableSortBy (fun a b => decide (centerX a.vertices ≤ centerX b.vertices))
    (l.filter fun r => isHeaderText r.text)

/-- The `cellWidth` from the header positions: distance between the outermost
header centers divided by the header count minus one (or the fallback 100). -/
def headerCellW (headers : List OCRResult) : ℚ :=
  let bs := headers.map fun h => centerX h.vertices
  if bs.length > 1 then (bs.getLastD 0 - bs.headD 0) / ((bs.length - 1 : ℕ) : ℚ)
  else 100

/-- Header-strategy `minX = boundaries[0] - cellWidth / 2`. -/
def headerMinX (headers : List OCRResult) : ℚ :=
  (headers.map fun h => centerX h.vertices).headD 0 - headerCellW headers / 2

/-- Row index of a fragment in the header strategy (before the range check). -/
def headerRowIx (l : List OCRResult) (r : OCRResult) : ℤ :=
  Rat.floor ((centerY r.vertices - bbMinY l) / ((bbMaxY l - bbMinY l) / 5))

/-- Column index of a fragment in the header strategy. -/
def headerColIx (headers : List OCRResult) (r : OCRResult) : ℤ :=
  Rat.floor ((centerX r.vertices - headerMinX headers) / headerCellW headers)

/-- Model of `gridFromHeaders`.  A fragment is placed only when its computed
row and column pass the `0 ≤ _ < 5` checks; with a zero cell width or height,
or an empty vertex list, the JavaScript indices are `NaN`/`±Infinity` and
those checks fail, so such fragments are skipped. -/
def gridFromHeaders (headers l : List OCRResult) : Grid :=
  fun i j => l.filter fun r =>
    if r.vertices.isEmpty ∨ headerCellW headers = 0 ∨ bbMaxY l - bbMinY l = 0 then false
    else decide (headerRowIx l r = ((i : ℕ) : ℤ) ∧ headerColIx headers r = ((j : ℕ) : ℤ) ∧
      0 ≤ headerRowIx l r ∧ headerRowIx l r < 5 ∧ 0 ≤ headerColIx headers r ∧ headerColIx headers r < 5)

/-! ### Strategy selection (`detectGridWithMultipleStrategies`) -/

/-- Model of `clusterByDensity`: keep the fragments with at least one extractable
number. -/
def clusterByDensity (l : List OCRResult) : List OCRResult :=
  l.filter fun r => !(extractAllPossibleNumbers r.text).isEmpty

/-- Model of `gridFromClusters`: it falls back to the relaxed bounding-box method. -/
def gridFromClusters (l : List OCRResult) : Option Grid :=
  gridFromBoundingBoxRelaxed l

/-- Model of `detectGridWithMultipleStrategies`. -/
def detectGridWithMultipleStrategies (l : List OCRResult) : Option Grid :=
  if (findHeaders l).length ≥ 3 then some (gridFromHeaders (findHeaders l) l)
  else if (clusterByDensity l).length ≥ 20 then gridFromClusters (clusterByDensity l)
  else gridFromBoundingBoxRelaxed l

/-! ### Column validation and cell resolution -/

/-- Lower bound of `COLUMN_RANGES` for a column index (B I N G O). -/
def colRangeMin : ℕ → ℕ
  | 0 => 1
  | 1 => 16
  | 2 => 31
  | 3 => 46
  | 4 => 61
  | _ => 1

/-- Upper bound of `COLUMN_RANGES` for a column index. -/
def colRangeMax : ℕ → ℕ
  | 0 => 15
  | 1 => 30
  | 2 => 45
  | 3 => 60
  | 4 => 75
  | _ => 0

/-- Model of `validateNumberInColumn`. -/
def validateNumberInColumn (num col : ℕ) : Bool :=
  decide (colRangeMin col ≤ num) && decide (num ≤ colRangeMax col)

/-- Descending-confidence comparator used by `sort((a, b) => b.confidence - a.confidence)`. -/
def confDescLe (a b : OCRResult) : Bool :=
  decide (b.confidence ≤ a.confidence)

/-- The same comparator on candidate numbers. -/
def candConfDescLe (a b : BingoNumber) : Bool :=
  decide (b.confidence ≤ a.confidence)

/-- A cell's fragments sorted by descending confidence. -/
def sortByConfDesc (rs : List OCRResult) : List OCRResult :=
  stableSortBy confDescLe rs

/-- The cell candidates: every extracted number of every fragment of the cell
that passes column validation, with the source fragment's confidence. -/
def cellCandidates (row col : ℕ) (rs : List OCRResult) : List BingoNumber :=
  (sortByConfDesc rs).flatMap fun r =>
    (extractAllPossibleNumbers r.text).filterMap fun num =>
      if validateNumberInColumn num col then
        some ⟨num, decide (num % 2 = 1), row, col, r.confidence⟩
      else none

/-- The winner of a non-center cell: the candidates are sorted by descending
confidence and the first one is taken. -/
def cellWinner (row col : ℕ) (rs : List OCRResult) : Option BingoNumber :=
  (stableSortBy candConfDescLe (cellCandidates row col rs)).head?

/-! ### Card aggregation (`parseBingoCard` after the Vision call) -/

/-- The 25 cells in the row-major order of the nested `for` loops. -/
def gridCellsList : List (Fin 5 × Fin 5) :=
  (List.finRange 5).flatMap fun i => (List.finRange 5).map fun j => (i, j)

/-- One step of the cell loop: the center cell contributes nothing, every
other cell contributes its winner (if any). -/
def resolveCell (g : Grid) (p : Fin 5 × Fin 5) : Option BingoNumber :=
  if (p.1 : ℕ) = 2 ∧ (p.2 : ℕ) = 2 then none
  else cellWinner (p.1 : ℕ) (p.2 : ℕ) (g p.1 p.2)

/-- All resolved numbers, in loop order. -/
def resolvedNumbers (g : Grid) : List BingoNumber :=
  gridCellsList.filterMap (resolveCell g)

/-- The `freeSpaceContent`: trimmed text of the most confident fragment of cell
(2,2), defaulting to the literal `"FREE"`. -/
def freeSpaceOf (g : Grid) : List Char :=
  match sortByConfDesc (g 2 2) with
  | [] => "FREE".data
  | r :: _ => jsTrim r.text

/-- Assembling the returned `BingoCard` from a located grid. -/
def buildCard (g : Grid) : Card :=
  let ns := resolvedNumbers g
  ⟨ns, freeSpaceOf g,
    ns.countP fun n => n.isOdd,
    ns.countP fun n => !n.isOdd,
    ns.length,
    if 0 < ns.length then (ns.map fun n => n.confidence).sum / (ns.length : ℚ) else 0⟩

/-- The pure part of `parseBingoCard`: filter the fragments, throw when none
survive, locate the grid (which can throw on degenerate geometry), then
resolve the cells and aggregate.  `none` models a thrown error. -/
def parseBingoCardPure (raw : List OCRResult) : Option Card :=
  if (raw.filter shouldProcessOCRResult).isEmpty then none
  else
    match detectGridWithMultipleStrategies (raw.filter shouldProcessOCRResult) with
    | none => none
    | some g => some (buildCard g)

/-- The fragments that end up in the center cell of the located grid. -/
def centerCell (raw : List OCRResult) : List OCRResult :=
  match detectGridWithMultipleStrategies (raw.filter shouldProcessOCRResult) with
  | some g => g 2 2
  | none => []

/-! ### Lemmas about the stable sort -/

theorem mem_insertSorted {le : α → α → Bool} {x a : α} :
    ∀ {l : List α}, a ∈ insertSorted le x l ↔ a = x ∨ a ∈ l := by
  intro l
  induction l with
  | nil => simp [insertSorted]
  | cons y ys ih =>
    by_cases h : le x y = true
    · simp [insertSorted, h]
    · simp only [insertSorted, h, Bool.false_eq_true, if_false, List.mem_cons, ih]
      tauto

theorem mem_stableSortBy {le : α → α → Bool} {a : α} :
    ∀ {l : List α}, a ∈ stableSortBy le l ↔ a ∈ l := by
  intro l
  induction l with
  | nil => simp [stableSortBy]
  | cons y ys ih => simp [stableSortBy, mem_insertSorted, ih]

/-- Head-maximality for the descending comparators used in the pipeline,
phrased for an arbitrary rational key. -/
def HeadMax (key : α → ℚ) (l : List α) : Prop :=
  ∀ y ys, l = y :: ys → ∀ a ∈ l, key a ≤ key y

theorem headMax_insertSorted {key : α → ℚ} {x : α} {l : List α}
    (hl : HeadMax key l) :
    HeadMax key (insertSorted (fun a b => decide (key b ≤ key a)) x l) := by
  cases l with
  | nil =>
    intro y ys h a ha
    simp only [insertSorted] at h ha
    injection h with h1 h2
    rw [← h1]
    simp only [List.mem_singleton] at ha
    exact le_of_eq (by rw [ha])
  | cons z zs =>
    cases hle : decide (key z ≤ key x) with
    | true =>
      intro y ys hcons a ha
      simp only [insertSorted, hle, if_true] at hcons ha
      injection hcons with h1 h2
      rw [← h1]
      rcases (List.mem_cons).1 ha with rfl | ha2
      · exact le_refl _
      · exact le_trans (hl z zs rfl a ha2) (of_decide_eq_true hle)
    | false =>
      intro y ys hcons a ha
      simp only [insertSorted, hle, Bool.false_eq_true, if_false] at hcons ha
      injection hcons with h1 h2
      rw [← h1]
      have hxz : key x ≤ key z := by
        have hnot : ¬ key z ≤ key x := of_decide_eq_false hle
        exact le_of_lt (lt_of_not_le hnot)
      rcases (List.mem_cons).1 ha with rfl | ha2
      · exact le_refl _
      · rcases (mem_insertSorted).1 ha2 with rfl | ha3
        · exact hxz
        · exact hl z zs rfl a (List.mem_cons_of_mem _ ha3)

theorem headMax_stableSortBy {key : α → ℚ} :
    ∀ (l : List α), HeadMax key (stableSortBy (fun a b => decide (key b ≤ key a)) l) := by
  intro l
  induction l with
  | nil => intro y ys h; simp [stableSortBy] at h
  | cons x xs ih => exact headMax_insertSorted ih

/-! ### Lemmas about trimming and header texts -/

theorem jsTrim_single {c : Char} (h : isJsWs c = false) : jsTrim [c] = [c] := by
  simp [jsTrim, List.dropWhile, h]

theorem isHeaderText_elim {t : List Char} (h : isHeaderText t = true) :
    ∃ c, t = [c] ∧ jsUpper c ∈ ['B', 'I', 'N', 'G', 'O'] ∧ isJsWs c = false := by
  match t, h with
  | [c], h =>
    refine ⟨c, rfl, ?_, ?_⟩
    · exact of_decide_eq_true h
    · have hb : jsUpper c ∈ ['B', 'I', 'N', 'G', 'O'] := of_decide_eq_true h
      by_contra hws
      have hws' : isJsWs c = true := by
        cases hw : isJsWs c
        · exact absurd hw hws
        · rfl
      have : c ∈ [' ', '\t', '\n', '\r', '\x0b', '\x0c'] := of_decide_eq_true hws'
      fin_cases this <;> revert hb <;> decide

theorem shouldProcess_not_header {r : OCRResult}
    (h : shouldProcessOCRResult r = true) : isHeaderText r.text = false := by
  cases hh : isHeaderText r.text
  · rfl
  · exfalso
    obtain ⟨c, hc, hupper, hws⟩ := isHeaderText_elim hh
    rw [shouldProcessOCRResult, hc, jsTrim_single hws] at h
    have hfree : isFreeSpaceText [c] = false := by
      simp only [isFreeSpaceText, Bool.or_eq_false_iff, decide_eq_false_iff_not]
      constructor
      · intro hlen
        have := congrArg List.length hlen
        simp [upperList] at this
      · intro hlen
        have := congrArg List.length hlen
        simp [upperList] at this
    rw [hc] at hh
    simp only [hfree, Bool.false_eq_true, if_false, hh, if_true] at h

/-! ### Lemmas about number extraction -/

theorem digitVal_le_nine {c : Char} (h : isDigitChar c = true) : digitVal c ≤ 9 := by
  simp only [isDigitChar, Bool.and_eq_true, decide_eq_true_eq] at h
  obtain ⟨h1, h2⟩ := h
  have h57 : '9'.toNat = 57 := by decide
  have h48 : '0'.toNat = 48 := by decide
  rw [h57] at h2
  rw [h48] at h1
  simp only [digitVal, h48]
  omega

theorem map_flatMap_pairs {f : Char → Char} (hf : f '1' = '1') (l : List Char) :
    (l.flatMap fun c => [c, '1']).map f = (l.map f).flatMap fun c => [c, '1'] := by
  induction l with
  | nil => simp
  | cons c cs ih => simp [ih, hf]

theorem substOne_interleaveOnes (a b : Char) (h : a ≠ '1') (l : List Char) :
    substOne a b (interleaveOnes l) = interleaveOnes (substOne a b l) := by
  have hg : (if '1' = a then b else '1') = '1' := by
    rw [if_neg]
    intro hh
    exact h hh.symm
  simp only [substOne, interleaveOnes, List.map_cons, hg]
  rw [@map_flatMap_pairs (fun c => if c = a then b else c) hg l]

theorem correctOCRErrors_eq (t : List Char) :
    correctOCRErrors t =
      interleaveOnes (substOne 'g' '9' (substOne 'B' '8' (substOne 't' '7' (substOne 'T' '7'
        (substOne 'b' '6' (substOne 'G' '6' (substOne 's' '5' (substOne 'S' '5'
          (substOne 'z' '2' (substOne 'Z' '2' (substOne 'i' '1'
            (substOne 'I' '1' (substOne 'l' '1' (substOne 'Q' '0'
              (substOne 'o' '0' (substOne 'O' '0' t)))))))))))))))) := by
  rw [correctOCRErrors,
    substOne_interleaveOnes 'i' '1' (by decide),
    substOne_interleaveOnes 'Z' '2' (by decide),
    substOne_interleaveOnes 'z' '2' (by decide),
    substOne_interleaveOnes 'S' '5' (by decide),
    substOne_interleaveOnes 's' '5' (by decide),
    substOne_interleaveOnes 'G' '6' (by decide),
    substOne_interleaveOnes 'b' '6' (by decide),
    substOne_interleaveOnes 'T' '7' (by decide),
    substOne_interleaveOnes 't' '7' (by decide),
    substOne_interleaveOnes 'B' '8' (by decide),
    substOne_interleaveOnes 'g' '9' (by decide)]

theorem digitRunNums_interleaveOnes_head (l : List Char) :
    ∃ n rest, digitRunNums (interleaveOnes l) = n :: rest ∧ 1 ≤ n ∧ n ≤ 19 := by
  cases l with
  | nil => exact ⟨1, [], by decide, by decide, by decide⟩
  | cons c l' =>
    have hil : interleaveOnes (c :: l') =
        '1' :: c :: '1' :: (l'.flatMap fun x => [x, '1']) := by
      simp [interleaveOnes]
    by_cases hc : isDigitChar c = true
    · refine ⟨10 * digitVal '1' + digitVal c,
        digitRunNums ('1' :: (l'.flatMap fun x => [x, '1'])), ?_, ?_, ?_⟩
      · rw [hil]
        simp only [digitRunNums]
        rw [if_pos (by decide), if_pos hc]
      · have h1 : digitVal '1' = 1 := by decide
        omega
      · have := digitVal_le_nine hc
        have h1 : digitVal '1' = 1 := by decide
        omega
    · refine ⟨digitVal '1',
        digitRunNums (c :: '1' :: (l'.flatMap fun x => [x, '1'])), ?_, ?_, ?_⟩
      · rw [hil]
        simp only [digitRunNums]
        rw [if_pos (by decide), if_neg hc]
      · decide
      · decide

theorem insertUniq_ne_nil (acc : List ℕ) (n : ℕ) : insertUniq acc n ≠ [] := by
  rw [insertUniq]
  split
  · rename_i hmem
    exact List.ne_nil_of_mem hmem
  · simp

theorem addValid_ne_nil {acc : List ℕ} (h : acc ≠ []) (n : ℕ) : addValid acc n ≠ [] := by
  rw [addValid]
  split
  · exact insertUniq_ne_nil acc n
  · exact h

theorem foldl_addValid_ne_nil {acc : List ℕ} (h : acc ≠ []) :
    ∀ (L : List ℕ), L.foldl addValid acc ≠ [] := by
  intro L
  induction L generalizing acc with
  | nil => exact h
  | cons n L ih => exact ih (addValid_ne_nil h n)

theorem addValid_of_valid {acc : List ℕ} {n : ℕ} (h : isValidBingoNumber n = true) :
    addValid acc n = insertUniq acc n := by
  rw [addValid, if_pos h]

theorem extract_ne_nil (t : List Char) : extractAllPossibleNumbers t ≠ [] := by
  obtain ⟨n, rest, heq, h1, h19⟩ := digitRunNums_interleaveOnes_head
    (substOne 'g' '9' (substOne 'B' '8' (substOne 't' '7' (substOne 'T' '7'
      (substOne 'b' '6' (substOne 'G' '6' (substOne 's' '5' (substOne 'S' '5'
        (substOne 'z' '2' (substOne 'Z' '2' (substOne 'i' '1'
          (substOne 'I' '1' (substOne 'l' '1' (substOne 'Q' '0'
            (substOne 'o' '0' (substOne 'O' '0' t))))))))))))))))
  rw [extractAllPossibleNumbers, correctOCRErrors_eq, heq]
  apply foldl_addValid_ne_nil
  simp only [List.foldl_cons]
  apply foldl_addValid_ne_nil
  rw [addValid_of_valid]
  · exact insertUniq_ne_nil _ _
  · simp only [isValidBingoNumber, Bool.and_eq_true, decide_eq_true_eq]
    omega

/-! ### Lemmas about strategy selection on filtered fragments -/

theorem findHeaders_eq_nil {l : List OCRResult}
    (h : ∀ r ∈ l, shouldProcessOCRResult r = true) : findHeaders l = [] := by
  rw [findHeaders]
  have hfil : (l.filter fun r => isHeaderText r.text) = [] := by
    rw [List.filter_eq_nil_iff]
    intro r hr
    simp [shouldProcess_not_header (h r hr)]
  rw [hfil]
  rfl

theorem clusterByDensity_eq_self (l : List OCRResult) : clusterByDensity l = l := by
  rw [clusterByDensity, List.filter_eq_self]
  intro r hr
  simp [extract_ne_nil r.text]

theorem detect_filtered_eq_bbox {l : List OCRResult}
    (h : ∀ r ∈ l, shouldProcessOCRResult r = true) :
    detectGridWithMultipleStrategies l = gridFromBoundingBoxRelaxed l := by
  rw [detectGridWithMultipleStrategies, findHeaders_eq_nil h, clusterByDensity_eq_self]
  rw [if_neg (by simp)]
  rw [gridFromClusters]
  exact ite_self _

theorem buildCard_numbers (g : Grid) : (buildCard g).numbers = resolvedNumbers g := rfl

theorem buildCard_free (g : Grid) : (buildCard g).freeSpaceContent = freeSpaceOf g := rfl

theorem buildCard_odds (g : Grid) :
    (buildCard g).oddsCount = (resolvedNumbers g).countP (fun n => n.isOdd) := rfl

theorem buildCard_evens (g : Grid) :
    (buildCard g).evensCount = (resolvedNumbers g).countP (fun n => !n.isOdd) := rfl

theorem buildCard_total (g : Grid) :
    (buildCard g).totalNumbers = (resolvedNumbers g).length := rfl

theorem buildCard_conf (g : Grid) :
    (buildCard g).confidence =
      if 0 < (resolvedNumbers g).length then
        ((resolvedNumbers g).map fun n => n.confidence).sum / ((resolvedNumbers g).length : ℚ)
      else 0 := rfl

theorem parse_some_elim {raw : List OCRResult} {card : Card}
    (h : parseBingoCardPure raw = some card) :
    ∃ g, detectGridWithMultipleStrategies (raw.filter shouldProcessOCRResult) = some g ∧
      card = buildCard g := by
  rw [parseBingoCardPure] at h
  by_cases he : (raw.filter shouldProcessOCRResult).isEmpty = true
  · rw [if_pos he] at h
    exact absurd h (by simp)
  · rw [if_neg he] at h
    cases hd : detectGridWithMultipleStrategies (raw.filter shouldProcessOCRResult) with
    | none =>
      rw [hd] at h
      exact absurd h (by simp)
    | some g =>
      rw [hd] at h
      injection h with hh
      exact ⟨g, rfl, hh.symm⟩

/-! ### Lemmas about the located grid and the cell resolver -/

theorem bbox_grid_cases {l : List OCRResult} {g : Grid}
    (h : gridFromBoundingBoxRelaxed l = some g) :
    (l.isEmpty = true ∧ ∀ i j, g i j = []) ∨
    (∀ i j, g i j = l.filter fun r =>
        decide (bboxRow l r = ((i : ℕ) : ℤ) ∧ bboxCol l r = ((j : ℕ) : ℤ))) := by
  rw [gridFromBoundingBoxRelaxed] at h
  split at h
  · left
    refine ⟨by assumption, ?_⟩
    injection h with hh
    intro i j
    rw [← hh]
  · split at h
    · exact absurd h (by simp)
    · split at h
      · exact absurd h (by simp)
      · right
        injection h with hh
        intro i j
        rw [← hh]

theorem grid_cell_mem {raw : List OCRResult} {g : Grid}
    (hd : detectGridWithMultipleStrategies (raw.filter shouldProcessOCRResult) = some g)
    {i j : Fin 5} {r : OCRResult} (hr : r ∈ g i j) :
    r ∈ raw.filter shouldProcessOCRResult := by
  rw [detect_filtered_eq_bbox (fun x hx => List.of_mem_filter hx)] at hd
  rcases bbox_grid_cases hd with ⟨_, hg⟩ | hg
  · rw [hg i j] at hr
    simp at hr
  · rw [hg i j] at hr
    exact List.mem_of_mem_filter hr

theorem cellWinner_mem_candidates {row col : ℕ} {rs : List OCRResult} {n : BingoNumber}
    (h : cellWinner row col rs = some n) : n ∈ cellCandidates row col rs := by
  rw [cellWinner] at h
  cases hs : stableSortBy candConfDescLe (cellCandidates row col rs) with
  | nil =>
    rw [hs] at h
    simp at h
  | cons m ms =>
    rw [hs] at h
    simp only [List.head?_cons, Option.some.injEq] at h
    have hm : m ∈ stableSortBy candConfDescLe (cellCandidates row col rs) := by
      rw [hs]
      exact List.mem_cons_self m ms
    rw [← h]
    exact mem_stableSortBy.1 hm

theorem cellCandidates_elim {row col : ℕ} {rs : List OCRResult} {n : BingoNumber}
    (h : n ∈ cellCandidates row col rs) :
    n.row = row ∧ n.col = col ∧ validateNumberInColumn n.value col = true ∧
      ∃ r ∈ rs, n.confidence = r.confidence := by
  rw [cellCandidates] at h
  rw [List.mem_flatMap] at h
  obtain ⟨r, hr, hn⟩ := h
  rw [List.mem_filterMap] at hn
  obtain ⟨num, _, hv⟩ := hn
  rw [sortByConfDesc] at hr
  by_cases hval : validateNumberInColumn num col = true
  · rw [if_pos hval] at hv
    injection hv with hv
    subst hv
    exact ⟨rfl, rfl, hval, r, mem_stableSortBy.1 hr, rfl⟩
  · rw [if_neg hval] at hv
    exact absurd hv (by simp)

theorem mem_resolvedNumbers {g : Grid} {n : BingoNumber} (h : n ∈ resolvedNumbers g) :
    ∃ p : Fin 5 × Fin 5, ¬((p.1 : ℕ) = 2 ∧ (p.2 : ℕ) = 2) ∧
      cellWinner (p.1 : ℕ) (p.2 : ℕ) (g p.1 p.2) = some n := by
  rw [resolvedNumbers] at h
  rw [List.mem_filterMap] at h
  obtain ⟨p, _, hres⟩ := h
  rw [resolveCell] at hres
  by_cases hc : (p.1 : ℕ) = 2 ∧ (p.2 : ℕ) = 2
  · rw [if_pos hc] at hres
    exact absurd hres (by simp)
  · rw [if_neg hc] at hres
    exact ⟨p, hc, hres⟩

theorem resolved_conf_from_grid {g : Grid} {n : BingoNumber} (h : n ∈ resolvedNumbers g) :
    ∃ i j : Fin 5, ∃ r ∈ g i j, n.confidence = r.confidence := by
  obtain ⟨p, _, hw⟩ := mem_resolvedNumbers h
  obtain ⟨_, _, _, r, hr, hconf⟩ := cellCandidates_elim (cellWinner_mem_candidates hw)
  exact ⟨p.1, p.2, r, hr, hconf⟩

/-! ### Counting and sum helpers -/

theorem countP_add_countP_not (p : α → Bool) (L : List α) :
    L.countP p + L.countP (fun a => !p a) = L.length := by
  induction L with
  | nil => simp
  | cons a t ih =>
    rw [List.countP_cons, List.countP_cons, List.length_cons]
    cases hp : p a <;> simp [hp] <;> omega

theorem length_filterMap_le_countP (f : α → Option β) (q : α → Bool)
    (hf : ∀ a, q a = false → f a = none) :
    ∀ L : List α, (L.filterMap f).length ≤ L.countP q := by
  intro L
  induction L with
  | nil => simp
  | cons a t ih =>
    cases hq : q a
    · rw [List.countP_cons_of_neg q t (by simp [hq]), List.filterMap_cons, hf a hq]
      exact ih
    · rw [List.countP_cons_of_pos q t hq, List.filterMap_cons]
      cases hfa : f a with
      | none =>
        show (List.filterMap f t).length ≤ List.countP q t + 1
        omega
      | some b =>
        show (b :: List.filterMap f t).length ≤ List.countP q t + 1
        rw [List.length_cons]
        omega

theorem sum_nonneg_q {L : List ℚ} (h : ∀ x ∈ L, 0 ≤ x) : 0 ≤ L.sum := by
  induction L with
  | nil => simp
  | cons a t ih =>
    rw [List.sum_cons]
    exact add_nonneg (h a (List.mem_cons_self a t))
      (ih fun x hx => h x (List.mem_cons_of_mem a hx))

theorem sum_le_length_q {L : List ℚ} (h : ∀ x ∈ L, x ≤ 1) : L.sum ≤ (L.length : ℚ) := by
  induction L with
  | nil => simp
  | cons a t ih =>
    rw [List.sum_cons, List.length_cons]
    push_cast
    have h1 : a ≤ 1 := h a (List.mem_cons_self a t)
    have h2 : t.sum ≤ (t.length : ℚ) := ih fun x hx => h x (List.mem_cons_of_mem a hx)
    linarith

/-! ### Claim theorems: structural invariants of the returned card -/

/-- Claim C1: every resolved number in a card returned by `parseBingoCard`
has `0 ≤ row ≤ 4`, `0 ≤ col ≤ 4`, `(row, col) ≠ (2, 2)`, and a value inside
the inclusive range that `COLUMN_RANGES` assigns to its column
(B = [1,15], I = [16,30], N = [31,45], G = [46,60], O = [61,75]). -/
theorem parse_resolved_invariants (raw : List OCRResult) (card : Card)
    (h : parseBingoCardPure raw = some card) :
    ∀ n ∈ card.numbers, n.row ≤ 4 ∧ n.col ≤ 4 ∧ ¬(n.row = 2 ∧ n.col = 2) ∧
      colRangeMin n.col ≤ n.value ∧ n.value ≤ colRangeMax n.col := by
  obtain ⟨g, hd, hcard⟩ := parse_some_elim h
  subst hcard
  intro n hn
  rw [buildCard_numbers] at hn
  obtain ⟨p, hp, hw⟩ := mem_resolvedNumbers hn
  obtain ⟨hrow, hcol, hval, -⟩ := cellCandidates_elim (cellWinner_mem_candidates hw)
  have h1 : (p.1 : ℕ) < 5 := p.1.isLt
  have h2 : (p.2 : ℕ) < 5 := p.2.isLt
  refine ⟨by omega, by omega, ?_, ?_⟩
  · rw [hrow, hcol]
    exact hp
  · rw [hcol]
    simp only [validateNumberInColumn, Bool.and_eq_true, decide_eq_true_eq] at hval
    exact hval

/-- Claim C8: `oddsCount + evensCount = totalNumbers = |numbers|` and
`totalNumbers ≤ 24` in every returned card. -/
theorem parse_counts_invariant (raw : List OCRResult) (card : Card)
    (h : parseBingoCardPure raw = some card) :
    card.oddsCount + card.evensCount = card.totalNumbers ∧
      card.totalNumbers = card.numbers.length ∧ card.totalNumbers ≤ 24 := by
  obtain ⟨g, hd, hcard⟩ := parse_some_elim h
  subst hcard
  rw [buildCard_odds, buildCard_evens, buildCard_total, buildCard_numbers]
  refine ⟨countP_add_countP_not _ _, rfl, ?_⟩
  have hle : (resolvedNumbers g).length ≤
      gridCellsList.countP fun p => decide (¬((p.1 : ℕ) = 2 ∧ (p.2 : ℕ) = 2)) := by
    apply length_filterMap_le_countP
    intro p hp
    rw [resolveCell, if_pos]
    have := of_decide_eq_false hp
    exact not_not.1 this
  have h24 : gridCellsList.countP (fun p => decide (¬((p.1 : ℕ) = 2 ∧ (p.2 : ℕ) = 2))) = 24 := by
    decide
  omega

/-! ### Confidence aggregation -/

theorem resolved_conf_bounds {raw : List OCRResult} {g : Grid}
    (hconf : ∀ r ∈ raw, 0 ≤ r.confidence ∧ r.confidence ≤ 1)
    (hd : detectGridWithMultipleStrategies (raw.filter shouldProcessOCRResult) = some g) :
    ∀ n ∈ resolvedNumbers g, 0 ≤ n.confidence ∧ n.confidence ≤ 1 := by
  intro n hn
  obtain ⟨i, j, r, hr, hc⟩ := resolved_conf_from_grid hn
  have hrraw : r ∈ raw := List.mem_of_mem_filter (grid_cell_mem hd hr)
  rw [hc]
  exact hconf r hrraw

/-- Claim C6 (amended): assuming every input confidence lies in `[0,1]`,
the returned confidence is the arithmetic mean of the winners' confidences
(`0` when there are none), it lies in `[0,1]`, and `totalNumbers = 0` forces
`confidence = 0`.  The converse of the last implication is refuted
separately. -/
theorem parse_confidence_mean (raw : List OCRResult) (card : Card)
    (hconf : ∀ r ∈ raw, 0 ≤ r.confidence ∧ r.confidence ≤ 1)
    (h : parseBingoCardPure raw = some card) :
    card.confidence =
      (if card.numbers.length = 0 then 0
        else (card.numbers.map fun n => n.confidence).sum / (card.numbers.length : ℚ)) ∧
    0 ≤ card.confidence ∧ card.confidence ≤ 1 ∧
    (card.totalNumbers = 0 → card.confidence = 0) := by
  obtain ⟨g, hd, hcard⟩ := parse_some_elim h
  subst hcard
  have hb := resolved_conf_bounds hconf hd
  rw [buildCard_conf, buildCard_numbers, buildCard_total]
  by_cases hlen : (resolvedNumbers g).length = 0
  · rw [if_pos hlen, if_neg (by omega)]
    exact ⟨rfl, le_refl 0, by norm_num, fun _ => rfl⟩
  · have hpos : 0 < (resolvedNumbers g).length := Nat.pos_of_ne_zero hlen
    have hposq : (0 : ℚ) < ((resolvedNumbers g).length : ℚ) := by
      exact_mod_cast hpos
    have hsum0 : 0 ≤ ((resolvedNumbers g).map fun n => n.confidence).sum := by
      apply sum_nonneg_q
      intro x hx
      obtain ⟨n, hn, hnx⟩ := List.mem_map.1 hx
      rw [← hnx]
      exact (hb n hn).1
    have hsum1 : ((resolvedNumbers g).map fun n => n.confidence).sum ≤
        ((resolvedNumbers g).length : ℚ) := by
      have := sum_le_length_q (L := (resolvedNumbers g).map fun n => n.confidence) ?_
      · rwa [List.length_map] at this
      · intro x hx
        obtain ⟨n, hn, hnx⟩ := List.mem_map.1 hx
        rw [← hnx]
        exact (hb n hn).2
    rw [if_pos hpos, if_neg hlen]
    refine ⟨rfl, ?_, ?_, ?_⟩
    · exact div_nonneg hsum0 (le_of_lt hposq)
    · rw [div_le_one hposq]
      exact hsum1
    · intro h0
      exact absurd h0 hlen

/-! ### Free-space handling -/

theorem sortByConfDesc_headMax (l : List OCRResult) :
    HeadMax (fun r : OCRResult => r.confidence) (sortByConfDesc l) :=
  headMax_stableSortBy l

theorem centerCell_eq {raw : List OCRResult} {g : Grid}
    (hd : detectGridWithMultipleStrategies (raw.filter shouldProcessOCRResult) = some g) :
    centerCell raw = g 2 2 := by
  rw [centerCell, hd]

/-- Claim C7: `freeSpaceContent` is the trimmed text of a highest-confidence
fragment of cell (2,2) (the literal `"FREE"` when the cell is empty), and the
center cell never contributes to `numbers`. -/
theorem parse_free_space (raw : List OCRResult) (card : Card)
    (h : parseBingoCardPure raw = some card) :
    (centerCell raw = [] → card.freeSpaceContent = "FREE".data) ∧
    (∀ y ys, sortByConfDesc (centerCell raw) = y :: ys →
      card.freeSpaceContent = jsTrim y.text ∧ y ∈ centerCell raw ∧
        ∀ r ∈ centerCell raw, r.confidence ≤ y.confidence) ∧
    (∀ n ∈ card.numbers, ¬(n.row = 2 ∧ n.col = 2)) := by
  obtain ⟨g, hd, hcard⟩ := parse_some_elim h
  subst hcard
  rw [buildCard_free, buildCard_numbers]
  have hcc : centerCell raw = g 2 2 := centerCell_eq hd
  refine ⟨?_, ?_, ?_⟩
  · intro hnil
    rw [hcc] at hnil
    rw [freeSpaceOf, hnil]
    rfl
  · intro y ys hsort
    rw [hcc] at hsort ⊢
    refine ⟨?_, ?_, ?_⟩
    · rw [freeSpaceOf, hsort]
    · have : y ∈ sortByConfDesc (g 2 2) := by
        rw [hsort]
        exact List.mem_cons_self y ys
      rw [sortByConfDesc] at this
      exact mem_stableSortBy.1 this
    · intro r hr
      have hmax := sortByConfDesc_headMax (g 2 2) y ys hsort
      have hrs : r ∈ sortByConfDesc (g 2 2) := by
        rw [sortByConfDesc]
        exact mem_stableSortBy.2 hr
      exact hmax r hrs
  · intro n hn
    obtain ⟨p, hp, hw⟩ := mem_resolvedNumbers hn
    obtain ⟨hrow, hcol, -, -⟩ := cellCandidates_elim (cellWinner_mem_candidates hw)
    rw [hrow, hcol]
    exact hp

/-! ### Non-fatal low detection -/

/-- Claim C9 (amended): whenever at least one fragment survives the token
filter and the grid locator succeeds, the pipeline returns a card — however
few cells resolve; the detection count is never turned into a failure. -/
theorem parse_returns_card (raw : List OCRResult)
    (h1 : (raw.filter shouldProcessOCRResult).isEmpty = false)
    (h2 : (detectGridWithMultipleStrategies (raw.filter shouldProcessOCRResult)).isSome = true) :
    (parseBingoCardPure raw).isSome = true := by
  rw [parseBingoCardPure, if_neg (by simp [h1])]
  cases hd : detectGridWithMultipleStrategies (raw.filter shouldProcessOCRResult) with
  | none =>
    rw [hd] at h2
    simp at h2
  | some g =>
    rfl

/-! ### Safety of the bounding-box locator -/

theorem clamp04_bounds (z : ℤ) : 0 ≤ clamp04 z ∧ clamp04 z ≤ 4 := by
  constructor
  · exact le_max_left 0 _
  · apply max_le
    · norm_num
    · exact min_le_left 4 z

theorem bbox_some {l : List OCRResult} (hne : l ≠ [])
    (hv : ∀ r ∈ l, r.vertices ≠ []) (hw : 0 < bbWidth l) (hh : 0 < bbHeight l) :
    gridFromBoundingBoxRelaxed l = some fun (i j : Fin 5) =>
      l.filter fun r => decide (bboxRow l r = ((i : ℕ) : ℤ) ∧ bboxCol l r = ((j : ℕ) : ℤ)) := by
  have hA : ¬(l.isEmpty = true) := by simp [hne]
  have hB : ¬((l.any fun r => r.vertices.isEmpty) = true) := by
    rw [List.any_eq_true]
    rintro ⟨r, hr, hre⟩
    exact hv r hr (by simpa using hre)
  have hC : ¬(bbWidth l = 0 ∨ bbHeight l = 0) := by
    rintro (h0 | h0)
    · exact absurd h0 (ne_of_gt hw)
    · exact absurd h0 (ne_of_gt hh)
  rw [gridFromBoundingBoxRelaxed, if_neg hA, if_neg hB, if_neg hC]

/-- Claim C10: on a non-empty fragment list with non-empty polygons whose
overall bounding box has strictly positive width and height, the relaxed
bounding-box locator succeeds (no division-by-zero failure) and the clamped
cell index of every fragment lies in `[0,4] × [0,4]`, so every grid access is
in bounds. -/
theorem bbox_relaxed_safe (l : List OCRResult) (hne : l ≠ [])
    (hv : ∀ r ∈ l, r.vertices ≠ []) (hw : 0 < bbWidth l) (hh : 0 < bbHeight l) :
    (gridFromBoundingBoxRelaxed l).isSome = true ∧
    ∀ r ∈ l, 0 ≤ bboxRow l r ∧ bboxRow l r ≤ 4 ∧ 0 ≤ bboxCol l r ∧ bboxCol l r ≤ 4 := by
  refine ⟨by rw [bbox_some hne hv hw hh]; rfl, ?_⟩
  intro r _
  obtain ⟨a1, a2⟩ := clamp04_bounds (Rat.floor ((centerY r.vertices - padMinY l) / relaxedCellH l))
  obtain ⟨b1, b2⟩ := clamp04_bounds (Rat.floor ((centerX r.vertices - padMinX l) / relaxedCellW l))
  exact ⟨a1, a2, b1, b2⟩

/-- Claim C4 (amended): on a non-empty list of token-filter-accepted
fragments with non-empty polygons and a non-degenerate overall bounding box,
the grid locator succeeds and assigns every input fragment to exactly one of
the 25 cells (out-of-bounds indices are clamped, not dropped).  With
header-shaped fragments or a degenerate bounding box this fails, as the
counterexample records. -/
theorem locate_covers_accepted (l : List OCRResult) (hne : l ≠ [])
    (hacc : ∀ r ∈ l, shouldProcessOCRResult r = true)
    (hv : ∀ r ∈ l, r.vertices ≠ []) (hw : 0 < bbWidth l) (hh : 0 < bbHeight l) :
    ∃ g, detectGridWithMultipleStrategies l = some g ∧
      ∀ r ∈ l, ∃! p : Fin 5 × Fin 5, r ∈ g p.1 p.2 := by
  refine ⟨_, by rw [detect_filtered_eq_bbox hacc, bbox_some hne hv hw hh], ?_⟩
  intro r hr
  obtain ⟨a1, a2⟩ := clamp04_bounds (Rat.floor ((centerY r.vertices - padMinY l) / relaxedCellH l))
  obtain ⟨b1, b2⟩ := clamp04_bounds (Rat.floor ((centerX r.vertices - padMinX l) / relaxedCellW l))
  have ha1 : 0 ≤ bboxRow l r := a1
  have ha2 : bboxRow l r ≤ 4 := a2
  have hb1 : 0 ≤ bboxCol l r := b1
  have hb2 : bboxCol l r ≤ 4 := b2
  refine ⟨(⟨(bboxRow l r).toNat, by omega⟩, ⟨(bboxCol l r).toNat, by omega⟩), ?_, ?_⟩
  · simp only [List.mem_filter]
    refine ⟨hr, ?_⟩
    apply decide_eq_true
    constructor
    · exact (Int.toNat_of_nonneg ha1).symm
    · exact (Int.toNat_of_nonneg hb1).symm
  · rintro ⟨qi, qj⟩ hq
    simp only [List.mem_filter] at hq
    obtain ⟨e1, e2⟩ := of_decide_eq_true hq.2
    have hv1 : (qi : ℕ) = (bboxRow l r).toNat := by omega
    have hv2 : (qj : ℕ) = (bboxCol l r).toNat := by omega
    exact Prod.ext (Fin.ext hv1) (Fin.ext hv2)

/-! ### The claimed Token Filter condition (C5), as written -/

/-- The acceptance condition claimed for the Token Filter, as a predicate on
a text and a confidence: text equal to FREE/SPACE case-insensitively, or
(not a single header character, confidence at least 0.3, at least one digit,
and at least one extracted candidate). -/
def tokenFilterSpec (t : List Char) (conf : ℚ) : Prop :=
  (upperList t = "FREE".data ∨ upperList t = "SPACE".data) ∨
  (isHeaderText t = false ∧ 3 / 10 ≤ conf ∧ t.any isDigitChar = true ∧
    extractAllPossibleNumbers t ≠ [])

instance (t : List Char) (conf : ℚ) : Decidable (tokenFilterSpec t conf) := by
  unfold tokenFilterSpec
  infer_instance

/-- Claim C5 (amended): the token filter accepts a fragment exactly when the
claimed condition holds of the fragment's whitespace-trimmed text. -/
theorem token_filter_iff (r : OCRResult) :
    shouldProcessOCRResult r = true ↔ tokenFilterSpec (jsTrim r.text) r.confidence := by
  simp only [shouldProcessOCRResult, tokenFilterSpec]
  by_cases hfree : isFreeSpaceText (jsTrim r.text) = true
  · rw [if_pos hfree]
    simp only [isFreeSpaceText, Bool.or_eq_true, decide_eq_true_eq] at hfree
    simp [hfree]
  · rw [if_neg hfree]
    have hfree' : ¬(upperList (jsTrim r.text) = "FREE".data ∨
        upperList (jsTrim r.text) = "SPACE".data) := by
      simpa [isFreeSpaceText] using hfree
    by_cases hhdr : isHeaderText (jsTrim r.text) = true
    · rw [if_pos hhdr]
      simp [hfree', hhdr]
    · rw [if_neg hhdr]
      have hhdr' : isHeaderText (jsTrim r.text) = false := by
        cases h : isHeaderText (jsTrim r.text)
        · rfl
        · exact absurd h hhdr
      by_cases hconf : r.confidence < 3 / 10
      · rw [if_pos hconf]
        have hc : ¬(3 / 10 ≤ r.confidence) := not_le.2 hconf
        simp [hfree', hc]
      · rw [if_neg hconf]
        have hconf' : 3 / 10 ≤ r.confidence := not_lt.1 hconf
        by_cases hdig : (jsTrim r.text).any isDigitChar = true
        · rw [if_pos hdig]
          simp [hfree', hhdr', hconf', hdig, extract_ne_nil]
        · rw [if_neg hdig]
          have hdig' : (jsTrim r.text).any isDigitChar = false := by
            cases h : (jsTrim r.text).any isDigitChar
            · rfl
            · exact absurd h hdig
          simp [hfree', hdig']

/-! ### Concrete inputs used by the counterexamples and witnesses -/

/-- A fragment reading "3" in the top-left region. -/
def fragNum3 : OCRResult := ⟨"3".data, 9 / 10, [(0, 0), (10, 0), (10, 10), (0, 10)]⟩

/-- A fragment reading "17" in the middle region. -/
def fragNum17 : OCRResult := ⟨"17".data, 9 / 10, [(45, 45), (55, 45), (55, 55), (45, 55)]⟩

/-- A fragment reading "70" in the bottom-right region. -/
def fragNum70 : OCRResult := ⟨"70".data, 9 / 10, [(90, 90), (100, 90), (100, 100), (90, 100)]⟩

/-- A three-fragment input: "3" lands in cell (0,0), "17" in the center cell,
"70" in cell (4,4). -/
def rawW : List OCRResult := [fragNum3, fragNum17, fragNum70]

/-- The card the pipeline produces from `rawW`. -/
def cardW : Card :=
  ⟨[⟨3, true, 0, 0, 9 / 10⟩, ⟨70, false, 4, 4, 9 / 10⟩], "17".data, 1, 1, 2, 9 / 10⟩

/-- A FREE-space fragment with confidence 0 positioned in the top-left. -/
def fragFree0 : OCRResult := ⟨"FREE".data, 0, [(0, 0), (10, 0), (10, 10), (0, 10)]⟩

/-- A fragment reading "42" (invalid for column O) in the bottom-right. -/
def fragNum42 : OCRResult := ⟨"42".data, 9 / 10, [(90, 90), (100, 90), (100, 100), (90, 100)]⟩

/-- Input whose only winner is the confidence-0 FREE fragment: it is accepted
unconditionally by the filter, its extraction yields 1 (the inserted-ones
bug), and 1 is valid for column B. -/
def rawConf0 : List OCRResult := [fragFree0, fragNum42]

/-- The card produced from `rawConf0`. -/
def cardConf0 : Card := ⟨[⟨1, true, 0, 0, 0⟩], "FREE".data, 1, 0, 1, 0⟩

/-- An accepted fragment whose polygon is a single point. -/
def fragPoint42 : OCRResult := ⟨"42".data, 9 / 10, [(0, 0), (0, 0), (0, 0), (0, 0)]⟩

/-- A second accepted fragment at the same point. -/
def fragPoint70 : OCRResult := ⟨"70".data, 9 / 10, [(0, 0), (0, 0), (0, 0), (0, 0)]⟩

/-- Two accepted fragments with a zero-size overall bounding box. -/
def rawDegenerate : List OCRResult := [fragPoint42, fragPoint70]

/-- A single accepted degenerate fragment. -/
def rawPoint42 : List OCRResult := [fragPoint42]

/-! ### Claim C2: the character-substitution step -/

/-- Claim C2 (code bug): the substitution step does not leave
non-confusion characters unchanged; because the `'|'` table entry is compiled
into `new RegExp('|')`, which matches the empty string, a `'1'` is inserted
at every position — `"5"` becomes `"151"` — and the pipe character itself is
left in place — `"|"` becomes `"1|1"`. -/
theorem correct_inserts_ones :
    correctOCRErrors "5".data = "151".data ∧ correctOCRErrors "|".data = "1|1".data := by
  decide

/-! ### Claim C3: extraction from "6063" -/

/-- Claim C3 counterexample: extraction from "6063" does not return the set
{60, 63}. -/
theorem extract_6063_not_pair :
    (extractAllPossibleNumbers "6063".data).toFinset ≠ ({60, 63} : Finset ℕ) := by
  decide

/-- Claim C3 (amended): extraction from "6063" returns 60 and 63 (direct
matches), 16, 10, 13 and 1 (from the corrected text "161016131"), and 6 and 3
(from the character-by-character pass), in this insertion order. -/
theorem extract_6063_eq :
    extractAllPossibleNumbers "6063".data = [60, 63, 16, 10, 13, 1, 6, 3] := by
  decide

/-! ### Counterexamples and witnesses on the concrete inputs -/

unseal Rat.mul Rat.inv Rat.add Rat.sub in
set_option maxRecDepth 10000 in
/-- Claim C5 counterexample: a fragment whose raw text is `" FREE"` (leading
space) at confidence 0.1 is accepted by the filter although the claimed
condition is false of its raw text: the raw text is not equal to FREE or
SPACE, and the confidence is below 0.3. -/
theorem token_filter_untrimmed_mismatch :
    shouldProcessOCRResult ⟨" FREE".data, 1 / 10, []⟩ = true ∧
    ¬ tokenFilterSpec " FREE".data (1 / 10) := by
  decide

unseal Rat.mul Rat.inv Rat.add Rat.sub in
set_option maxRecDepth 10000 in
/-- Claim C6 counterexample: all of `rawConf0`'s confidences lie in `[0,1]`,
yet the returned card has confidence 0 with one resolved number, so
`confidence = 0` does not imply `totalNumbers = 0`. -/
theorem confidence_zero_with_winner :
    (∀ r ∈ rawConf0, 0 ≤ r.confidence ∧ r.confidence ≤ 1) ∧
    parseBingoCardPure rawConf0 = some cardConf0 ∧
    cardConf0.confidence = 0 ∧ cardConf0.totalNumbers = 1 := by
  decide

unseal Rat.mul Rat.inv Rat.add Rat.sub in
set_option maxRecDepth 10000 in
/-- Claim C4 counterexample: a non-empty list of accepted fragments whose
bounding box is a single point; the grid locator fails (in the source,
`NaN` cell indices make `grid[NaN].push` throw), so no fragment is assigned
to any cell. -/
theorem locate_fails_degenerate :
    (∀ r ∈ rawDegenerate, shouldProcessOCRResult r = true) ∧ rawDegenerate ≠ [] ∧
    (detectGridWithMultipleStrategies rawDegenerate).isSome = false := by
  decide

unseal Rat.mul Rat.inv Rat.add Rat.sub in
set_option maxRecDepth 10000 in
/-- Claim C9 counterexample: one fragment survives the token filter and
fewer than 15 cells resolve, yet the pipeline throws (returns no card)
because the fragment's degenerate bounding box breaks the locator. -/
theorem parse_throws_degenerate :
    (rawPoint42.filter shouldProcessOCRResult).isEmpty = false ∧
    parseBingoCardPure rawPoint42 = none := by
  decide

unseal Rat.mul Rat.inv Rat.add Rat.sub in
set_option maxRecDepth 10000 in
/-- Witness for claim C1 at the concrete input `rawW`. -/
theorem parse_resolved_invariants_witness :
    parseBingoCardPure rawW = some cardW ∧
    ∀ n ∈ cardW.numbers, n.row ≤ 4 ∧ n.col ≤ 4 ∧ ¬(n.row = 2 ∧ n.col = 2) ∧
      colRangeMin n.col ≤ n.value ∧ n.value ≤ colRangeMax n.col :=
  ⟨by decide, parse_resolved_invariants rawW cardW (by decide)⟩

unseal Rat.mul Rat.inv Rat.add Rat.sub in
set_option maxRecDepth 10000 in
/-- Witness for claim C8 at the concrete input `rawW`. -/
theorem parse_counts_invariant_witness :
    cardW.oddsCount + cardW.evensCount = cardW.totalNumbers ∧
      cardW.totalNumbers = cardW.numbers.length ∧ cardW.totalNumbers ≤ 24 :=
  parse_counts_invariant rawW cardW (by decide)

unseal Rat.mul Rat.inv Rat.add Rat.sub in
set_option maxRecDepth 10000 in
/-- Witness for the amended claim C6 at the concrete input `rawW`. -/
theorem parse_confidence_mean_witness :
    cardW.confidence =
      (if cardW.numbers.length = 0 then 0
        else (cardW.numbers.map fun n => n.confidence).sum / (cardW.numbers.length : ℚ)) ∧
    0 ≤ cardW.confidence ∧ cardW.confidence ≤ 1 ∧
    (cardW.totalNumbers = 0 → cardW.confidence = 0) :=
  parse_confidence_mean rawW cardW (by decide) (by decide)

unseal Rat.mul Rat.inv Rat.add Rat.sub in
set_option maxRecDepth 10000 in
/-- Witness for claim C7 at the concrete input `rawW`: the center fragment
"17" becomes the free-space content and no number carries the center cell. -/
theorem parse_free_space_witness :
    cardW.freeSpaceContent = jsTrim fragNum17.text ∧ fragNum17 ∈ centerCell rawW ∧
    ∀ n ∈ cardW.numbers, ¬(n.row = 2 ∧ n.col = 2) := by
  have h := parse_free_space rawW cardW (by decide)
  have h2 := h.2.1 fragNum17 [] (by decide)
  exact ⟨h2.1, h2.2.1, h.2.2⟩

unseal Rat.mul Rat.inv Rat.add Rat.sub in
set_option maxRecDepth 10000 in
/-- Witness for the amended claim C9 at the concrete input `rawW`. -/
theorem parse_returns_card_witness :
    (parseBingoCardPure rawW).isSome = true :=
  parse_returns_card rawW (by decide) (by decide)

unseal Rat.mul Rat.inv Rat.add Rat.sub in
set_option maxRecDepth 10000 in
/-- Witness for the amended claim C4 at the concrete input `rawW`. -/
theorem locate_covers_accepted_witness :
    ∃ g, detectGridWithMultipleStrategies rawW = some g ∧
      ∀ r ∈ rawW, ∃! p : Fin 5 × Fin 5, r ∈ g p.1 p.2 :=
  locate_covers_accepted rawW (by decide) (by decide) (by decide) (by decide) (by decide)

unseal Rat.mul Rat.inv Rat.add Rat.sub in
set_option maxRecDepth 10000 in
/-- Witness for claim C10 at the concrete input `rawW`. -/
theorem bbox_relaxed_safe_witness :
    (gridFromBoundingBoxRelaxed rawW).isSome = true ∧
    ∀ r ∈ rawW, 0 ≤ bboxRow rawW r ∧ bboxRow rawW r ≤ 4 ∧
      0 ≤ bboxCol rawW r ∧ bboxCol rawW r ≤ 4 :=
  bbox_relaxed_safe rawW (by decide) (by decide) (by decide) (by decide)

end Bingo
